import Mathlib

/-!
Shallow embedding of `crypto_data.py` (Crypto-Historical-Data-Retrieval).

Pandas float columns are modelled over the rationals; a pandas `NaN` entry
is `Option.none` in columns that can hold one.  The percentage-deviation
columns can divide by zero, which in pandas/numpy produces an IEEE special
value rather than an exception, so those columns take values in `PFloat`
(a rational, an infinity, or NaN).

Rolling windows follow `Series.rolling(window=w, min_periods=1)`: row `i`
aggregates positions `max(0, i-w+1) .. i`, NaN entries are skipped, and the
result is NaN when no entry remains.  `Series.shift(-k)` reads position `j`
of the shifted column as position `j+k` of the source column, NaN past the
end.  `Series.argmax` (numpy semantics) returns the position of the first
occurrence of the maximum.
-/

/-- One row of the OHLC table produced by `fetch_crypto_data`
(`Date`, `Open`, `High`, `Low`, `Close`; the date is kept abstract as an
integer timestamp). -/
structure PriceRow where
  date : Int
  open_ : ℚ
  high : ℚ
  low : ℚ
  close : ℚ
deriving DecidableEq, Repr

/-- A pandas float value as numpy produces it: a finite value, one of the
two infinities, or NaN. -/
inductive PFloat where
  | fin (q : ℚ)
  | pinf
  | ninf
  | nan
deriving DecidableEq, Repr

/-- IEEE subtraction on `PFloat` (the embedding only ever subtracts a
finite value and an extremum, but the operation is total). -/
def PFloat.sub : PFloat → PFloat → PFloat
  | .nan, _ => .nan
  | _, .nan => .nan
  | .fin a, .fin b => .fin (a - b)
  | .fin _, .pinf => .ninf
  | .fin _, .ninf => .pinf
  | .pinf, .fin _ => .pinf
  | .ninf, .fin _ => .ninf
  | .pinf, .pinf => .nan
  | .pinf, .ninf => .pinf
  | .ninf, .pinf => .ninf
  | .ninf, .ninf => .nan

/-- IEEE division on `PFloat`: dividing a nonzero finite value by zero
yields a signed infinity, `0/0` yields NaN (numpy float behaviour — no
exception is raised). -/
def PFloat.div : PFloat → PFloat → PFloat
  | .nan, _ => .nan
  | _, .nan => .nan
  | .fin a, .fin b =>
      if b = 0 then (if a = 0 then .nan else if 0 < a then .pinf else .ninf)
      else .fin (a / b)
  | .fin _, .pinf => .fin 0
  | .fin _, .ninf => .fin 0
  | .pinf, .fin b => if 0 ≤ b then .pinf else .ninf
  | .ninf, .fin b => if 0 ≤ b then .ninf else .pinf
  | .pinf, .pinf => .nan
  | .pinf, .ninf => .nan
  | .ninf, .pinf => .nan
  | .ninf, .ninf => .nan

/-- IEEE multiplication on `PFloat`. -/
def PFloat.mul : PFloat → PFloat → PFloat
  | .nan, _ => .nan
  | _, .nan => .nan
  | .fin a, .fin b => .fin (a * b)
  | .fin a, .pinf => if 0 < a then .pinf else if a < 0 then .ninf else .nan
  | .fin a, .ninf => if 0 < a then .ninf else if a < 0 then .pinf else .nan
  | .pinf, .fin b => if 0 < b then .pinf else if b < 0 then .ninf else .nan
  | .ninf, .fin b => if 0 < b then .ninf else if b < 0 then .pinf else .nan
  | .pinf, .pinf => .pinf
  | .pinf, .ninf => .ninf
  | .ninf, .pinf => .ninf
  | .ninf, .ninf => .pinf

/-- A possibly-NaN column entry read as a `PFloat`. -/
def PFloat.ofOpt : Option ℚ → PFloat
  | none => .nan
  | some q => .fin q

/-- The integer positions of the pandas rolling window of size `w` at row
`i`: `max(0, i-w+1) .. i` (natural subtraction performs the clamping). -/
def winIdx (w i : Nat) : List Nat :=
  List.range' (i + 1 - w) (i + 1 - (i + 1 - w))

/-- Maximum of a list of rationals, `none` on the empty list (the NaN
result of an aggregation over an empty window). -/
def listMax : List ℚ → Option ℚ
  | [] => none
  | x :: xs => some (xs.foldl max x)

/-- Minimum of a list of rationals, `none` on the empty list. -/
def listMin : List ℚ → Option ℚ
  | [] => none
  | x :: xs => some (xs.foldl min x)

/-- numpy `argmax`: position of the first occurrence of the maximum
(`0` on the empty list, which never occurs in use). -/
def argmaxFirst (l : List ℚ) : Nat :=
  match listMax l with
  | none => 0
  | some m => l.findIdx (fun y => decide (y = m))

/-- numpy `argmin`: position of the first occurrence of the minimum. -/
def argminFirst (l : List ℚ) : Nat :=
  match listMin l with
  | none => 0
  | some m => l.findIdx (fun y => decide (y = m))

/-- `col.rolling(window=w, min_periods=1).max()` at row `i`; `col` reads a
column entry by position (`none` = NaN). -/
def rollMax (col : Nat → Option ℚ) (w i : Nat) : Option ℚ :=
  listMax ((winIdx w i).filterMap col)

/-- `col.rolling(window=w, min_periods=1).min()` at row `i`. -/
def rollMin (col : Nat → Option ℚ) (w i : Nat) : Option ℚ :=
  listMin ((winIdx w i).filterMap col)

/-- `col.rolling(window=w, min_periods=1).apply(lambda x: len(x) - 1 -
x[::-1].argmax())` at row `i`: the window is read in reverse, numpy
`argmax` is taken, and the result is subtracted from `len(x) - 1`. -/
def rollDaysMax (col : Nat → Option ℚ) (w i : Nat) : Option Nat :=
  let v := (winIdx w i).filterMap col
  if v.isEmpty then none else some (v.length - 1 - argmaxFirst v.reverse)

/-- `col.rolling(window=w, min_periods=1).apply(lambda x: len(x) - 1 -
x[::-1].argmin())` at row `i`. -/
def rollDaysMin (col : Nat → Option ℚ) (w i : Nat) : Option Nat :=
  let v := (winIdx w i).filterMap col
  if v.isEmpty then none else some (v.length - 1 - argminFirst v.reverse)

/-- The percentage-deviation computation
`(Close - extremum) / extremum * 100` with numpy float semantics; the
extremum may be NaN (`none`). -/
def pctDiff (c : ℚ) (e : Option ℚ) : PFloat :=
  (((PFloat.fin c).sub (PFloat.ofOpt e)).div (PFloat.ofOpt e)).mul (PFloat.fin 100)

/-- A row of the table returned by `calculate_metrics`: the input row plus
the ten derived columns (`None` = NaN in the trailing/forward extremum and
days-since columns; the percentage columns are `PFloat`). -/
structure MetricsRow extends PriceRow where
  highLast : Option ℚ
  lowLast : Option ℚ
  daysSinceHigh : Option Nat
  daysSinceLow : Option Nat
  highNext : Option ℚ
  lowNext : Option ℚ
  pctHighLast : PFloat
  pctLowLast : PFloat
  pctHighNext : PFloat
  pctLowNext : PFloat
deriving DecidableEq, Repr

/-- The derived columns of `calculate_metrics` evaluated at row index `i`
holding row `r`, given the `High` and `Low` columns of the whole table.
The forward columns first shift the source column by `-variable2`
(`fun j => highs.get? (j + variable2)`) and then roll a window of size
`variable2` over the shifted column, exactly as
`data['High'].shift(-variable2).rolling(window=variable2, min_periods=1)`. -/
def mkMetricsRow (highs lows : List ℚ) (variable1 variable2 i : Nat)
    (r : PriceRow) : MetricsRow :=
  let hl := rollMax (fun j => highs.get? j) variable1 i
  let ll := rollMin (fun j => lows.get? j) variable1 i
  let hn := rollMax (fun j => highs.get? (j + variable2)) variable2 i
  let ln := rollMin (fun j => lows.get? (j + variable2)) variable2 i
  { toPriceRow := r
    highLast := hl
    lowLast := ll
    daysSinceHigh := rollDaysMax (fun j => highs.get? j) variable1 i
    daysSinceLow := rollDaysMin (fun j => lows.get? j) variable1 i
    highNext := hn
    lowNext := ln
    pctHighLast := pctDiff r.close hl
    pctLowLast := pctDiff r.close ll
    pctHighNext := pctDiff r.close hn
    pctLowNext := pctDiff r.close ln }

/-- `calculate_metrics(data, variable1, variable2)`: every input row is
kept (pandas column assignment), and each derived column is computed
row-wise from the `High`/`Low` columns as in `mkMetricsRow`. -/
def calculate_metrics (data : List PriceRow) (variable1 variable2 : Nat) :
    List MetricsRow :=
  data.enum.map fun p =>
    mkMetricsRow (data.map (·.high)) (data.map (·.low)) variable1 variable2 p.1 p.2

/-- `Series.shift(1)` at position `i`: the previous entry, NaN at the
first row. -/
def shift1 (xs : List ℚ) (i : Nat) : Option ℚ :=
  if i = 0 then none else xs.get? (i - 1)

/-- `Series.rolling(window=2).max()` at position `i` (default
`min_periods = 2`: NaN unless both entries of the window exist). -/
def roll2Max (xs : List ℚ) (i : Nat) : Option ℚ :=
  if i = 0 then none
  else
    match xs.get? (i - 1), xs.get? i with
    | some a, some b => some (max a b)
    | _, _ => none

/-- `Series.rolling(window=2).min()` at position `i`. -/
def roll2Min (xs : List ℚ) (i : Nat) : Option ℚ :=
  if i = 0 then none
  else
    match xs.get? (i - 1), xs.get? i with
    | some a, some b => some (min a b)
    | _, _ => none

/-- The pure tabular transform inside `fetch_crypto_data` applied to the
raw `[timestamp, price]` series of a successful fetch, before `dropna` and
`tail(14)`: `Close` is the price, `Open = Close.shift(1)`,
`High/Low = Close.rolling(window=2).max()/.min()`; a row survives the
later `dropna` exactly when all of `Open`/`High`/`Low` are non-NaN, which
the `Option.bind` chain expresses. -/
def fetchAll (raw : List (Int × ℚ)) : List PriceRow :=
  (List.range raw.length).filterMap fun i =>
    (raw.get? i).bind fun dc =>
      (shift1 (raw.map (·.2)) i).bind fun o =>
        (roll2Max (raw.map (·.2)) i).bind fun h =>
          (roll2Min (raw.map (·.2)) i).map fun l =>
            { date := dc.1, open_ := o, high := h, low := l, close := dc.2 }

/-- `fetch_crypto_data`'s table after `dropna` and `tail(14)`: a row is
kept exactly when none of its `Open`/`High`/`Low` entries is NaN, and only
the last 14 surviving rows remain. -/
def fetch_crypto_table (raw : List (Int × ℚ)) : List PriceRow :=
  (fetchAll raw).drop ((fetchAll raw).length - 14)

/-- The percentage-deviation computation as section 4.1 of the
specification words it: it signals a division error when the extremum is
exactly 0 instead of producing a float.  Stated only to be compared with
the code's `pctDiff`. -/
def pctDiffSpecified (c e : ℚ) : Except String ℚ :=
  if e = 0 then Except.error "DivisionError" else Except.ok ((c - e) / e * 100)

/-- High series [5, 3]: input for the days-since-extremum check. -/
def tblDaysSince : List PriceRow :=
  [{ date := 0, open_ := 0, high := 5, low := 0, close := 1 },
   { date := 1, open_ := 0, high := 3, low := 0, close := 1 }]

/-- High series [5, 5, 3]: the spec's tie-break scenario. -/
def tblTie : List PriceRow :=
  [{ date := 0, open_ := 0, high := 5, low := 0, close := 0 },
   { date := 1, open_ := 0, high := 5, low := 0, close := 0 },
   { date := 2, open_ := 0, high := 3, low := 0, close := 0 }]

/-- High series [1, 9, 1, 1]: input showing the forward window of row 0
missing row 1. -/
def tblForwardMiss : List PriceRow :=
  [{ date := 0, open_ := 0, high := 1, low := 0, close := 0 },
   { date := 1, open_ := 0, high := 9, low := 0, close := 0 },
   { date := 2, open_ := 0, high := 1, low := 0, close := 0 },
   { date := 3, open_ := 0, high := 1, low := 0, close := 0 }]

/-- High/Low series [1, 2, 3, 4]: input for the tail-definedness of the
forward-looking fields. -/
def tblForwardTail : List PriceRow :=
  [{ date := 0, open_ := 0, high := 1, low := 1, close := 0 },
   { date := 1, open_ := 0, high := 2, low := 2, close := 0 },
   { date := 2, open_ := 0, high := 3, low := 3, close := 0 },
   { date := 3, open_ := 0, high := 4, low := 4, close := 0 }]

/-- A row whose Low is exactly 0 while Close is 5: input for the
division-by-zero behaviour of the percentage columns. -/
def tblZeroLow : List PriceRow :=
  [{ date := 0, open_ := 1, high := 1, low := 0, close := 5 }]

/-- High series [1, 2, 3, 4] again, with distinct Close values: input for
the trailing-window witness. -/
def tblTrail : List PriceRow :=
  [{ date := 0, open_ := 0, high := 1, low := 4, close := 0 },
   { date := 1, open_ := 0, high := 2, low := 3, close := 0 },
   { date := 2, open_ := 0, high := 3, low := 2, close := 0 },
   { date := 3, open_ := 0, high := 4, low := 1, close := 0 }]

/-- High 4, Low 1, Close 5: input for the percentage round-trip witness. -/
def tblRound : List PriceRow :=
  [{ date := 0, open_ := 0, high := 4, low := 1, close := 5 }]

/-- Raw [timestamp, price] series for the fetch-transform witness. -/
def rawFetchW : List (Int × ℚ) := [(0, 10), (1, 20), (2, 5)]

/-- The row of `fetch_crypto_table rawFetchW` built from raw index 1. -/
def rowFetchW : PriceRow := { date := 1, open_ := 10, high := 20, low := 10, close := 20 }

theorem le_foldl_max (l : List ℚ) : ∀ a : ℚ, a ≤ l.foldl max a := by
  induction l with
  | nil => intro a; simp
  | cons x xs ih => intro a; exact le_trans (le_max_left a x) (ih (max a x))

theorem mem_le_foldl_max (l : List ℚ) : ∀ a x : ℚ, x ∈ l → x ≤ l.foldl max a := by
  induction l with
  | nil => intro a x h; cases h
  | cons y ys ih =>
    intro a x h
    rcases List.mem_cons.mp h with h | h
    · subst h; exact le_trans (le_max_right a x) (le_foldl_max ys (max a x))
    · exact ih (max a y) x h

theorem foldl_max_mem (l : List ℚ) : ∀ a : ℚ, l.foldl max a ∈ a :: l := by
  induction l with
  | nil => intro a; simp
  | cons x xs ih =>
    intro a
    rcases List.mem_cons.mp (ih (max a x)) with h | h
    · rw [List.foldl_cons, h]
      rcases max_choice a x with hm | hm <;> rw [hm]
      · exact List.mem_cons_self _ _
      · exact List.mem_cons_of_mem _ (List.mem_cons_self _ _)
    · exact List.mem_cons_of_mem _ (List.mem_cons_of_mem _ h)

theorem foldl_min_le (l : List ℚ) : ∀ a : ℚ, l.foldl min a ≤ a := by
  induction l with
  | nil => intro a; simp
  | cons x xs ih => intro a; exact le_trans (ih (min a x)) (min_le_left a x)

theorem foldl_min_le_mem (l : List ℚ) : ∀ a x : ℚ, x ∈ l → l.foldl min a ≤ x := by
  induction l with
  | nil => intro a x h; cases h
  | cons y ys ih =>
    intro a x h
    rcases List.mem_cons.mp h with h | h
    · subst h; exact le_trans (foldl_min_le ys (min a x)) (min_le_right a x)
    · exact ih (min a y) x h

theorem foldl_min_mem (l : List ℚ) : ∀ a : ℚ, l.foldl min a ∈ a :: l := by
  induction l with
  | nil => intro a; simp
  | cons x xs ih =>
    intro a
    rcases List.mem_cons.mp (ih (min a x)) with h | h
    · rw [List.foldl_cons, h]
      rcases min_choice a x with hm | hm <;> rw [hm]
      · exact List.mem_cons_self _ _
      · exact List.mem_cons_of_mem _ (List.mem_cons_self _ _)
    · exact List.mem_cons_of_mem _ (List.mem_cons_of_mem _ h)

theorem listMax_eq_none {l : List ℚ} : listMax l = none ↔ l = [] := by
  cases l <;> simp [listMax]

theorem listMin_eq_none {l : List ℚ} : listMin l = none ↔ l = [] := by
  cases l <;> simp [listMin]

theorem listMax_spec {l : List ℚ} {m : ℚ} (h : listMax l = some m) :
    m ∈ l ∧ ∀ x ∈ l, x ≤ m := by
  cases l with
  | nil => cases h
  | cons x xs =>
    have hm : xs.foldl max x = m := by
      simpa [listMax] using h
    constructor
    · rw [← hm]; exact foldl_max_mem xs x
    · intro y hy
      rcases List.mem_cons.mp hy with h' | h'
      · subst h'; rw [← hm]; exact le_foldl_max xs y
      · rw [← hm]; exact mem_le_foldl_max xs x y h'

theorem listMin_spec {l : List ℚ} {m : ℚ} (h : listMin l = some m) :
    m ∈ l ∧ ∀ x ∈ l, m ≤ x := by
  cases l with
  | nil => cases h
  | cons x xs =>
    have hm : xs.foldl min x = m := by
      simpa [listMin] using h
    constructor
    · rw [← hm]; exact foldl_min_mem xs x
    · intro y hy
      rcases List.mem_cons.mp hy with h' | h'
      · subst h'; rw [← hm]; exact foldl_min_le xs y
      · rw [← hm]; exact foldl_min_le_mem xs x y h'

theorem mem_winIdx {w i j : Nat} : j ∈ winIdx w i ↔ i + 1 - w ≤ j ∧ j < i + 1 := by
  unfold winIdx
  rw [List.mem_range'_1]
  omega

theorem calculate_metrics_get? (data : List PriceRow) (w1 w2 i : Nat) :
    (calculate_metrics data w1 w2).get? i =
      (data.get? i).map
        (mkMetricsRow (data.map (·.high)) (data.map (·.low)) w1 w2 i) := by
  unfold calculate_metrics
  rw [List.get?_map, List.get?_enum]
  cases data.get? i <;> rfl

theorem calculate_metrics_toPriceRow (data : List PriceRow) (w1 w2 : Nat) :
    (calculate_metrics data w1 w2).map (·.toPriceRow) = data := by
  unfold calculate_metrics
  rw [List.map_map]
  have h : ((fun r : MetricsRow => r.toPriceRow) ∘ fun p : Nat × PriceRow =>
      mkMetricsRow (data.map (·.high)) (data.map (·.low)) w1 w2 p.1 p.2) =
      Prod.snd := by
    funext p; rfl
  rw [h, List.enum_map_snd]

theorem pctDiff_fin (c E : ℚ) (hE : E ≠ 0) :
    pctDiff c (some E) = PFloat.fin ((c - E) / E * 100) := by
  simp [pctDiff, PFloat.ofOpt, PFloat.sub, PFloat.div, PFloat.mul, hE]

theorem pctDiff_zero (c : ℚ) :
    pctDiff c (some 0) =
      if 0 < c then PFloat.pinf else if c < 0 then PFloat.ninf else PFloat.nan := by
  rcases lt_trichotomy c 0 with h | h | h
  · simp [pctDiff, PFloat.ofOpt, PFloat.sub, PFloat.div, PFloat.mul, h,
      ne_of_lt h, not_lt.mpr (le_of_lt h), asymm h]
  · subst h
    simp [pctDiff, PFloat.ofOpt, PFloat.sub, PFloat.div, PFloat.mul]
  · simp [pctDiff, PFloat.ofOpt, PFloat.sub, PFloat.div, PFloat.mul, h,
      ne_of_gt h, not_lt.mpr (le_of_lt h)]

theorem round_trip_algebra (c E : ℚ) (hE : E ≠ 0) :
    E * (1 + ((c - E) / E * 100) / 100) = c := by
  field_simp
  ring

theorem rollMax_shift_none_iff (xs : List ℚ) (w i : Nat) :
    rollMax (fun j => xs.get? (j + w)) w i = none ↔
      ∀ j, i + 1 - w ≤ j ∧ j < i + 1 → xs.length ≤ j + w := by
  unfold rollMax
  rw [listMax_eq_none, List.filterMap_eq_nil]
  constructor
  · intro H j hj
    have h := H j (mem_winIdx.mpr hj)
    rwa [List.get?_eq_none] at h
  · intro H a ha
    rw [List.get?_eq_none]
    exact H a (mem_winIdx.mp ha)

theorem rollMin_shift_none_iff (xs : List ℚ) (w i : Nat) :
    rollMin (fun j => xs.get? (j + w)) w i = none ↔
      ∀ j, i + 1 - w ≤ j ∧ j < i + 1 → xs.length ≤ j + w := by
  unfold rollMin
  rw [listMin_eq_none, List.filterMap_eq_nil]
  constructor
  · intro H j hj
    have h := H j (mem_winIdx.mpr hj)
    rwa [List.get?_eq_none] at h
  · intro H a ha
    rw [List.get?_eq_none]
    exact H a (mem_winIdx.mp ha)

theorem shifted_window_all_gone_iff (n w i : Nat) (hw : 0 < w) (hi : i < n) :
    (∀ j, i + 1 - w ≤ j ∧ j < i + 1 → n ≤ j + w) ↔ (n ≤ w ∨ i = n - 1) := by
  constructor
  · intro H
    by_cases hc : n ≤ w
    · exact Or.inl hc
    · right
      have h := H (i + 1 - w) (by omega)
      omega
  · intro H j hj
    rcases H with H | H <;> omega

/-- C1 (code-bug evidence): on the High series [5, 3] with W1 = 2 the code
reports `Days_Since_High_Last_2_Days = 0` at row 1, although the window's
maximum (5, the reported `High_Last_2_Days`) occurs only at row 0, one row
back, while the current row's High is 3.  The claim states the field is
the backward distance to the most recent maximum, 0 exactly when the
maximum is the current row; the code instead computes
`len(x) - 1 - x[::-1].argmax()`, where `x[::-1].argmax()` already is that
backward distance, so it reports the forward window position of the most
recent maximum. -/
theorem daysSinceHigh_zero_despite_older_high :
    ((calculate_metrics tblDaysSince 2 5).get? 1).map (·.daysSinceHigh) =
        some (some 0) ∧
    ((calculate_metrics tblDaysSince 2 5).get? 1).map (·.highLast) =
        some (some 5) ∧
    (tblDaysSince.get? 1).map (·.high) = some 3 :=
  ⟨by decide, by decide, by decide⟩

/-- C6: on the High series [5, 5, 3] with W1 = 3 the code reports
`Days_Since_High_Last_3_Days = 1` at the last row — the more recent of the
two tied maxima wins, exactly as the claim states. -/
theorem tie_break_most_recent_high_wins :
    ((calculate_metrics tblTie 3 5).get? 2).map (·.daysSinceHigh) =
      some (some 1) := by
  decide

/-- C2 (code-bug evidence): on the High series [1, 9, 1, 1] with W2 = 2 the
code reports `High_Next_2_Days = 1` at row 0, while the maximum of High
over the claimed forward window `[1, 2]` is 9.  Shifting by `-W2` before
rolling makes the window of row `i` cover original rows
`[max(i+1, W2), i+W2]`, so early rows miss rows `i+1 .. W2-1`. -/
theorem highNext_misses_first_following_rows :
    ((calculate_metrics tblForwardMiss 7 2).get? 0).map (·.highNext) =
        some (some 1) ∧
    listMax (((tblForwardMiss.map (·.high)).drop 1).take 2) = some 9 :=
  ⟨by decide, by decide⟩

/-- C3 counterexample: on a series of length 4 with W2 = 2, the claim says
the forward-looking fields are undefined on exactly the final 2 rows, so in
particular at row 2; but the code leaves `High_Next_2_Days` defined there
(it equals 4, the High of row 3). -/
theorem forwardField_defined_inside_final_w2_rows :
    tblForwardTail.length = 4 ∧
    ((calculate_metrics tblForwardTail 7 2).get? 2).map (·.highNext) =
        some (some 4) ∧
    ((calculate_metrics tblForwardTail 7 2).get? 2).map (·.highNext) ≠
        some none :=
  ⟨by decide, by decide, by decide⟩

/-- C3 amended: because the code rolls with `min_periods=1` over the column
shifted by `-W2`, the forward-looking fields `High_Next_W2_Days` and
`Low_Next_W2_Days` are undefined (NaN) exactly on the final ROW of the
series when W2 < n, and on all rows when n ≤ W2. -/
theorem forwardFields_none_iff_last_row_or_short_series
    (data : List PriceRow) (w1 w2 i : Nat) (hw : 0 < w2) (hi : i < data.length) :
    (((calculate_metrics data w1 w2).get? i).map (·.highNext) = some none ↔
      (data.length ≤ w2 ∨ i = data.length - 1)) ∧
    (((calculate_metrics data w1 w2).get? i).map (·.lowNext) = some none ↔
      (data.length ≤ w2 ∨ i = data.length - 1)) := by
  rw [calculate_metrics_get?]
  rcases hr : data.get? i with _ | r
  · rw [List.get?_eq_none] at hr
    omega
  constructor
  · simp only [Option.map_some', Option.some_inj]
    show rollMax (fun j => (data.map (·.high)).get? (j + w2)) w2 i = none ↔ _
    rw [rollMax_shift_none_iff, List.length_map]
    exact shifted_window_all_gone_iff data.length w2 i hw hi
  · simp only [Option.map_some', Option.some_inj]
    show rollMin (fun j => (data.map (·.low)).get? (j + w2)) w2 i = none ↔ _
    rw [rollMin_shift_none_iff, List.length_map]
    exact shifted_window_all_gone_iff data.length w2 i hw hi

/-- C3 witness: the amended characterisation instantiated on the concrete
length-4 series with W2 = 2 at row 2. -/
theorem forwardFields_none_iff_witness :
    (((calculate_metrics tblForwardTail 7 2).get? 2).map (·.highNext) = some none ↔
      (tblForwardTail.length ≤ 2 ∨ 2 = tblForwardTail.length - 1)) ∧
    (((calculate_metrics tblForwardTail 7 2).get? 2).map (·.lowNext) = some none ↔
      (tblForwardTail.length ≤ 2 ∨ 2 = tblForwardTail.length - 1)) :=
  forwardFields_none_iff_last_row_or_short_series tblForwardTail 7 2 2
    (by decide) (by decide)

theorem mkMetricsRow_close (highs lows : List ℚ) (w1 w2 i : Nat) (r : PriceRow) :
    (mkMetricsRow highs lows w1 w2 i r).close = r.close := rfl

theorem mkMetricsRow_highLast (highs lows : List ℚ) (w1 w2 i : Nat) (r : PriceRow) :
    (mkMetricsRow highs lows w1 w2 i r).highLast =
      rollMax (fun j => highs.get? j) w1 i := rfl

theorem mkMetricsRow_lowLast (highs lows : List ℚ) (w1 w2 i : Nat) (r : PriceRow) :
    (mkMetricsRow highs lows w1 w2 i r).lowLast =
      rollMin (fun j => lows.get? j) w1 i := rfl

theorem mkMetricsRow_highNext (highs lows : List ℚ) (w1 w2 i : Nat) (r : PriceRow) :
    (mkMetricsRow highs lows w1 w2 i r).highNext =
      rollMax (fun j => highs.get? (j + w2)) w2 i := rfl

theorem mkMetricsRow_lowNext (highs lows : List ℚ) (w1 w2 i : Nat) (r : PriceRow) :
    (mkMetricsRow highs lows w1 w2 i r).lowNext =
      rollMin (fun j => lows.get? (j + w2)) w2 i := rfl

theorem mkMetricsRow_pctHighLast (highs lows : List ℚ) (w1 w2 i : Nat) (r : PriceRow) :
    (mkMetricsRow highs lows w1 w2 i r).pctHighLast =
      pctDiff r.close (rollMax (fun j => highs.get? j) w1 i) := rfl

theorem mkMetricsRow_pctLowLast (highs lows : List ℚ) (w1 w2 i : Nat) (r : PriceRow) :
    (mkMetricsRow highs lows w1 w2 i r).pctLowLast =
      pctDiff r.close (rollMin (fun j => lows.get? j) w1 i) := rfl

theorem mkMetricsRow_pctHighNext (highs lows : List ℚ) (w1 w2 i : Nat) (r : PriceRow) :
    (mkMetricsRow highs lows w1 w2 i r).pctHighNext =
      pctDiff r.close (rollMax (fun j => highs.get? (j + w2)) w2 i) := rfl

theorem mkMetricsRow_pctLowNext (highs lows : List ℚ) (w1 w2 i : Nat) (r : PriceRow) :
    (mkMetricsRow highs lows w1 w2 i r).pctLowNext =
      pctDiff r.close (rollMin (fun j => lows.get? (j + w2)) w2 i) := rfl

/-- C5: `High_Last_W1_Days[i]` is the maximum of `High` over the trailing
window `[max(0, i-W1+1), i]` and `Low_Last_W1_Days[i]` the minimum of
`Low` over the same rows; the window is right-anchored at row `i` (no
index beyond `i` is consulted) and both fields are defined at every row. -/
theorem trailing_extrema_are_window_extrema
    (data : List PriceRow) (w1 w2 i : Nat) (hw : 0 < w1) (hi : i < data.length) :
    ∃ r, (calculate_metrics data w1 w2).get? i = some r ∧
      (∃ mh, r.highLast = some mh ∧
        (∃ j, i + 1 - w1 ≤ j ∧ j ≤ i ∧ (data.get? j).map (·.high) = some mh) ∧
        (∀ j q, i + 1 - w1 ≤ j → j ≤ i →
          (data.get? j).map (·.high) = some q → q ≤ mh)) ∧
      (∃ ml, r.lowLast = some ml ∧
        (∃ j, i + 1 - w1 ≤ j ∧ j ≤ i ∧ (data.get? j).map (·.low) = some ml) ∧
        (∀ j q, i + 1 - w1 ≤ j → j ≤ i →
          (data.get? j).map (·.low) = some q → ml ≤ q)) := by
  rcases hr : data.get? i with _ | r0
  · rw [List.get?_eq_none] at hr
    omega
  refine ⟨mkMetricsRow (data.map (·.high)) (data.map (·.low)) w1 w2 i r0,
    ?_, ?_, ?_⟩
  · rw [calculate_metrics_get?, hr]
    rfl
  · have hmemi : i ∈ winIdx w1 i := mem_winIdx.mpr (by omega)
    have hhi : (data.map (·.high)).get? i = some r0.high := by
      rw [List.get?_map, hr]
      rfl
    have hvmem : r0.high ∈
        (winIdx w1 i).filterMap (fun j => (data.map (·.high)).get? j) :=
      List.mem_filterMap.mpr ⟨i, hmemi, hhi⟩
    rcases hmax : listMax
        ((winIdx w1 i).filterMap (fun j => (data.map (·.high)).get? j)) with _ | mh
    · rw [listMax_eq_none] at hmax
      rw [hmax] at hvmem
      cases hvmem
    have hspec := listMax_spec hmax
    refine ⟨mh, ?_, ?_, ?_⟩
    · rw [mkMetricsRow_highLast]
      exact hmax
    · rcases List.mem_filterMap.mp hspec.1 with ⟨j, hjmem, hjget⟩
      rw [mem_winIdx] at hjmem
      refine ⟨j, hjmem.1, by omega, ?_⟩
      rw [← List.get?_map]
      exact hjget
    · intro j q hj1 hj2 hq
      apply hspec.2
      refine List.mem_filterMap.mpr ⟨j, mem_winIdx.mpr ⟨hj1, by omega⟩, ?_⟩
      rw [List.get?_map]
      exact hq
  · have hmemi : i ∈ winIdx w1 i := mem_winIdx.mpr (by omega)
    have hli : (data.map (·.low)).get? i = some r0.low := by
      rw [List.get?_map, hr]
      rfl
    have hvmem : r0.low ∈
        (winIdx w1 i).filterMap (fun j => (data.map (·.low)).get? j) :=
      List.mem_filterMap.mpr ⟨i, hmemi, hli⟩
    rcases hmin : listMin
        ((winIdx w1 i).filterMap (fun j => (data.map (·.low)).get? j)) with _ | ml
    · rw [listMin_eq_none] at hmin
      rw [hmin] at hvmem
      cases hvmem
    have hspec := listMin_spec hmin
    refine ⟨ml, ?_, ?_, ?_⟩
    · rw [mkMetricsRow_lowLast]
      exact hmin
    · rcases List.mem_filterMap.mp hspec.1 with ⟨j, hjmem, hjget⟩
      rw [mem_winIdx] at hjmem
      refine ⟨j, hjmem.1, by omega, ?_⟩
      rw [← List.get?_map]
      exact hjget
    · intro j q hj1 hj2 hq
      apply hspec.2
      refine List.mem_filterMap.mpr ⟨j, mem_winIdx.mpr ⟨hj1, by omega⟩, ?_⟩
      rw [List.get?_map]
      exact hq

/-- C5 witness: the trailing-extrema characterisation instantiated on the
concrete series `tblTrail` with W1 = 2 at row 3. -/
theorem trailing_extrema_witness :
    ∃ r, (calculate_metrics tblTrail 2 1).get? 3 = some r ∧
      (∃ mh, r.highLast = some mh ∧
        (∃ j, 3 + 1 - 2 ≤ j ∧ j ≤ 3 ∧ (tblTrail.get? j).map (·.high) = some mh) ∧
        (∀ j q, 3 + 1 - 2 ≤ j → j ≤ 3 →
          (tblTrail.get? j).map (·.high) = some q → q ≤ mh)) ∧
      (∃ ml, r.lowLast = some ml ∧
        (∃ j, 3 + 1 - 2 ≤ j ∧ j ≤ 3 ∧ (tblTrail.get? j).map (·.low) = some ml) ∧
        (∀ j q, 3 + 1 - 2 ≤ j → j ≤ 3 →
          (tblTrail.get? j).map (·.low) = some q → ml ≤ q)) :=
  trailing_extrema_are_window_extrema tblTrail 2 1 3 (by decide) (by decide)

/-- C8: `calculate_metrics` returns one output row per input row, in the
same order — no row is dropped, including rows whose derived fields are
NaN. -/
theorem calculate_metrics_preserves_rows (data : List PriceRow) (w1 w2 : Nat) :
    (calculate_metrics data w1 w2).length = data.length ∧
    (calculate_metrics data w1 w2).map (·.toPriceRow) = data := by
  refine ⟨?_, calculate_metrics_toPriceRow data w1 w2⟩
  unfold calculate_metrics
  rw [List.length_map, List.enum_length]

/-- C10: the `Date`/`Open`/`High`/`Low`/`Close` columns of the returned
table equal those of the input row for row; the embedding is a pure
function of the input table (the Python code works on `data.copy()`), so
the caller's table is untouched and only new columns are added. -/
theorem calculate_metrics_preserves_input_columns
    (data : List PriceRow) (w1 w2 : Nat) :
    (calculate_metrics data w1 w2).map (·.date) = data.map (·.date) ∧
    (calculate_metrics data w1 w2).map (·.open_) = data.map (·.open_) ∧
    (calculate_metrics data w1 w2).map (·.high) = data.map (·.high) ∧
    (calculate_metrics data w1 w2).map (·.low) = data.map (·.low) ∧
    (calculate_metrics data w1 w2).map (·.close) = data.map (·.close) := by
  refine ⟨?_, ?_, ?_, ?_, ?_⟩ <;>
    · conv_rhs => rw [← calculate_metrics_toPriceRow data w1 w2]
      rw [List.map_map]
      rfl

/-- C7: whenever one of the four extremum fields is defined with a nonzero
value `E`, the reported percentage deviation `p` recovers the row's Close
exactly in rational arithmetic: `E * (1 + p/100) = Close`. -/
theorem pct_round_trip (data : List PriceRow) (w1 w2 i : Nat) (E c : ℚ)
    (hc : ((calculate_metrics data w1 w2).get? i).map (·.close) = some c) :
    (((calculate_metrics data w1 w2).get? i).map (·.highLast) = some (some E) →
      E ≠ 0 → ∃ p, ((calculate_metrics data w1 w2).get? i).map (·.pctHighLast) =
        some (PFloat.fin p) ∧ E * (1 + p / 100) = c) ∧
    (((calculate_metrics data w1 w2).get? i).map (·.lowLast) = some (some E) →
      E ≠ 0 → ∃ p, ((calculate_metrics data w1 w2).get? i).map (·.pctLowLast) =
        some (PFloat.fin p) ∧ E * (1 + p / 100) = c) ∧
    (((calculate_metrics data w1 w2).get? i).map (·.highNext) = some (some E) →
      E ≠ 0 → ∃ p, ((calculate_metrics data w1 w2).get? i).map (·.pctHighNext) =
        some (PFloat.fin p) ∧ E * (1 + p / 100) = c) ∧
    (((calculate_metrics data w1 w2).get? i).map (·.lowNext) = some (some E) →
      E ≠ 0 → ∃ p, ((calculate_metrics data w1 w2).get? i).map (·.pctLowNext) =
        some (PFloat.fin p) ∧ E * (1 + p / 100) = c) := by
  rw [calculate_metrics_get?] at hc ⊢
  rcases hr : data.get? i with _ | r0
  · rw [hr] at hc
    simp at hc
  rw [hr] at hc
  simp only [Option.map_some', Option.some_inj] at hc ⊢
  rw [mkMetricsRow_close] at hc
  simp only [mkMetricsRow_highLast, mkMetricsRow_lowLast, mkMetricsRow_highNext,
    mkMetricsRow_lowNext, mkMetricsRow_pctHighLast, mkMetricsRow_pctLowLast,
    mkMetricsRow_pctHighNext, mkMetricsRow_pctLowNext]
  refine ⟨?_, ?_, ?_, ?_⟩ <;>
    · intro hE hE0
      refine ⟨(c - E) / E * 100, ?_, round_trip_algebra c E hE0⟩
      rw [hE, hc]
      exact pctDiff_fin c E hE0

/-- C7 witness: the round-trip property instantiated on the one-row table
`tblRound` (High 4, Close 5) with W1 = 1. -/
theorem pct_round_trip_witness :
    ∃ p, ((calculate_metrics tblRound 1 1).get? 0).map (·.pctHighLast) =
        some (PFloat.fin p) ∧ (4 : ℚ) * (1 + p / 100) = 5 :=
  (pct_round_trip tblRound 1 1 0 4 5 (by decide)).1 (by decide) (by decide)

/-- C4 amended: when one of the four extremum fields is defined and exactly
0, the percentage-deviation column does not fail — the unguarded division
by zero produces an IEEE special value which is stored like any other
entry: `+inf` when Close is positive, `-inf` when negative, NaN when Close
is 0. -/
theorem pct_zero_extremum_eval (data : List PriceRow) (w1 w2 i : Nat) (c : ℚ)
    (hc : ((calculate_metrics data w1 w2).get? i).map (·.close) = some c) :
    (((calculate_metrics data w1 w2).get? i).map (·.highLast) = some (some 0) →
      ((calculate_metrics data w1 w2).get? i).map (·.pctHighLast) =
        some (if 0 < c then PFloat.pinf else if c < 0 then PFloat.ninf else PFloat.nan)) ∧
    (((calculate_metrics data w1 w2).get? i).map (·.lowLast) = some (some 0) →
      ((calculate_metrics data w1 w2).get? i).map (·.pctLowLast) =
        some (if 0 < c then PFloat.pinf else if c < 0 then PFloat.ninf else PFloat.nan)) ∧
    (((calculate_metrics data w1 w2).get? i).map (·.highNext) = some (some 0) →
      ((calculate_metrics data w1 w2).get? i).map (·.pctHighNext) =
        some (if 0 < c then PFloat.pinf else if c < 0 then PFloat.ninf else PFloat.nan)) ∧
    (((calculate_metrics data w1 w2).get? i).map (·.lowNext) = some (some 0) →
      ((calculate_metrics data w1 w2).get? i).map (·.pctLowNext) =
        some (if 0 < c then PFloat.pinf else if c < 0 then PFloat.ninf else PFloat.nan)) := by
  rw [calculate_metrics_get?] at hc ⊢
  rcases hr : data.get? i with _ | r0
  · rw [hr] at hc
    simp at hc
  rw [hr] at hc
  simp only [Option.map_some', Option.some_inj] at hc ⊢
  rw [mkMetricsRow_close] at hc
  simp only [mkMetricsRow_highLast, mkMetricsRow_lowLast, mkMetricsRow_highNext,
    mkMetricsRow_lowNext, mkMetricsRow_pctHighLast, mkMetricsRow_pctLowLast,
    mkMetricsRow_pctHighNext, mkMetricsRow_pctLowNext]
  refine ⟨?_, ?_, ?_, ?_⟩ <;>
    · intro hE
      rw [hE, hc]
      exact pctDiff_zero c

/-- C4 witness: the zero-extremum evaluation instantiated on `tblZeroLow`
(Low 0, Close 5) with W1 = 1: the `Low_Last` deviation column holds the
conditional value (which is `+inf` since Close = 5 > 0). -/
theorem pct_zero_extremum_eval_witness :
    ((calculate_metrics tblZeroLow 1 1).get? 0).map (·.pctLowLast) =
      some (if 0 < (5 : ℚ) then PFloat.pinf
        else if (5 : ℚ) < 0 then PFloat.ninf else PFloat.nan) :=
  (pct_zero_extremum_eval tblZeroLow 1 1 0 5 (by decide)).2.1 (by decide)

/-- C4 counterexample: at a row whose `Low_Last_1_Days` is exactly 0 and
whose Close is 5, the computation the specification asks for signals a
division error, but the code completes normally and stores the ordinary
IEEE float `+inf` in the percentage column — nothing is caught or
signalled to the caller. -/
theorem pct_zero_extremum_yields_infinity_not_error :
    pctDiffSpecified 5 0 = Except.error "DivisionError" ∧
    ((calculate_metrics tblZeroLow 1 1).get? 0).map (·.pctLowLast) =
      some PFloat.pinf := by
  constructor
  · simp [pctDiffSpecified]
  · rw [calculate_metrics_get?]
    have h0 : tblZeroLow.get? 0 =
        some { date := 0, open_ := 1, high := 1, low := 0, close := 5 } := by
      decide
    rw [h0]
    simp only [Option.map_some', mkMetricsRow_pctLowLast, Option.some_inj]
    have hm : rollMin (fun j => (tblZeroLow.map (·.low)).get? j) 1 0 = some 0 := by
      decide
    rw [hm]
    rw [pctDiff_zero]
    norm_num

/-- C9: every row of the table built by the fetch transform comes from a
raw index `i ≥ 1` (the first raw row, which has no prior Close, is
dropped): its Date and Close are those of raw entry `i`, its Open is the
Close of raw entry `i-1`, and its High/Low are the max/min of Close over
the 2-entry window `{i-1, i}`. -/
theorem fetch_rows_relate_to_raw_series (raw : List (Int × ℚ)) (r : PriceRow)
    (hr : r ∈ fetch_crypto_table raw) :
    ∃ i, 0 < i ∧ raw.get? i = some (r.date, r.close) ∧
      (raw.get? (i - 1)).map (·.2) = some r.open_ ∧
      r.high = max r.open_ r.close ∧ r.low = min r.open_ r.close := by
  have hall : r ∈ fetchAll raw := by
    unfold fetch_crypto_table at hr
    exact List.Sublist.mem hr (List.drop_sublist _ _)
  rcases List.mem_filterMap.mp hall with ⟨i, hmem, heq⟩
  rcases hgi : raw.get? i with _ | dc
  · rw [hgi] at heq
    simp at heq
  rw [hgi, Option.some_bind] at heq
  rcases hs : shift1 (raw.map (·.2)) i with _ | o
  · rw [hs] at heq
    simp at heq
  rw [hs, Option.some_bind] at heq
  rcases hM : roll2Max (raw.map (·.2)) i with _ | mx
  · rw [hM] at heq
    simp at heq
  rw [hM, Option.some_bind] at heq
  rcases hm : roll2Min (raw.map (·.2)) i with _ | mn
  · rw [hm] at heq
    simp at heq
  rw [hm, Option.map_some'] at heq
  have hi0 : i ≠ 0 := by
    intro h
    rw [h] at hs
    simp [shift1] at hs
  have ho : (raw.map (·.2)).get? (i - 1) = some o := by
    unfold shift1 at hs
    rw [if_neg hi0] at hs
    exact hs
  have hci : (raw.map (·.2)).get? i = some dc.2 := by
    rw [List.get?_map, hgi]
    rfl
  have hM' : mx = max o dc.2 := by
    unfold roll2Max at hM
    rw [if_neg hi0, ho, hci] at hM
    exact (Option.some_inj.mp hM).symm
  have hm' : mn = min o dc.2 := by
    unfold roll2Min at hm
    rw [if_neg hi0, ho, hci] at hm
    exact (Option.some_inj.mp hm).symm
  have hrw : r = { date := dc.1, open_ := o, high := mx, low := mn, close := dc.2 } :=
    (Option.some_inj.mp heq).symm
  subst hrw
  refine ⟨i, by omega, ?_, ?_, ?_, ?_⟩
  · rw [hgi]
  · rw [← List.get?_map]
    exact ho
  · exact hM'
  · exact hm'

/-- C9 witness: the fetch-row characterisation instantiated on the raw
series `[(0, 10), (1, 20), (2, 5)]` and the row it builds from raw
index 1. -/
theorem fetch_rows_relate_witness :
    ∃ i, 0 < i ∧ rawFetchW.get? i = some (rowFetchW.date, rowFetchW.close) ∧
      (rawFetchW.get? (i - 1)).map (·.2) = some rowFetchW.open_ ∧
      rowFetchW.high = max rowFetchW.open_ rowFetchW.close ∧
      rowFetchW.low = min rowFetchW.open_ rowFetchW.close :=
  fetch_rows_relate_to_raw_series rawFetchW rowFetchW (by decide)
